import Mathlib

/-!
# Verification of the `uhf` RFID tag tool

Shallow embedding of the repository's core logic:

* `TagFormat.ts` (`src/unnamed/part_000`): SHA-512 based credential
  derivation (`calculatePassword`, `calculatePasswords`, `calculateRES`)
  and the two tag format descriptors.
* `+page.svelte`: byte editing (`updateEpcData`, `isValidHex`), the
  security-status decoder (`decodeSecurityStatus`) and the format-specific
  sub-field sizes.
* The URN Code 40 codec, which the page imports from `$lib/urncode40` but
  whose source is not part of the repository snapshot; it is modelled from
  the specification's description.

Bytes are modelled as `Nat` values below 256, 64-bit machine words as `Nat`
values reduced with `&&& MASK64` wherever JavaScript's SHA-512 arithmetic
wraps.
-/

namespace UHF

/-! ## SHA-512 (the `crypto.subtle.digest('SHA-512', _)` primitive)

The browser primitive is external to the repository; it is modelled here as
the FIPS 180-4 SHA-512 function over byte lists, executable so that the
spec's end-to-end test vector can be checked by evaluation. -/

def MASK64 : Nat := 0xFFFFFFFFFFFFFFFF

def rotr64 (n x : Nat) : Nat := ((x >>> n) ||| (x <<< (64 - n))) &&& MASK64

def bnot64 (x : Nat) : Nat := x ^^^ MASK64

def bigSigma0 (x : Nat) : Nat := rotr64 28 x ^^^ rotr64 34 x ^^^ rotr64 39 x

def bigSigma1 (x : Nat) : Nat := rotr64 14 x ^^^ rotr64 18 x ^^^ rotr64 41 x

def smallSigma0 (x : Nat) : Nat := rotr64 1 x ^^^ rotr64 8 x ^^^ (x >>> 7)

def smallSigma1 (x : Nat) : Nat := rotr64 19 x ^^^ rotr64 61 x ^^^ (x >>> 6)

def chFn (x y z : Nat) : Nat := (x &&& y) ^^^ (bnot64 x &&& z)

def majFn (x y z : Nat) : Nat := (x &&& y) ^^^ (x &&& z) ^^^ (y &&& z)

/-- The eight 64-bit working variables of SHA-512. -/
structure Hash8 where
  a : Nat
  b : Nat
  c : Nat
  d : Nat
  e : Nat
  f : Nat
  g : Nat
  h : Nat
deriving Repr, DecidableEq

def sha512init : Hash8 :=
  ⟨0x6A09E667F3BCC908, 0xBB67AE8584CAA73B, 0x3C6EF372FE94F82B,
   0xA54FF53A5F1D36F1, 0x510E527FADE682D1, 0x9B05688C2B3E6C1F,
   0x1F83D9ABFB41BD6B, 0x5BE0CD19137E2179⟩

def sha512K : List Nat :=
  [
    0x428A2F98D728AE22, 0x7137449123EF65CD, 0xB5C0FBCFEC4D3B2F, 0xE9B5DBA58189DBBC, 0x3956C25BF348B538,
    0x59F111F1B605D019, 0x923F82A4AF194F9B, 0xAB1C5ED5DA6D8118, 0xD807AA98A3030242, 0x12835B0145706FBE,
    0x243185BE4EE4B28C, 0x550C7DC3D5FFB4E2, 0x72BE5D74F27B896F, 0x80DEB1FE3B1696B1, 0x9BDC06A725C71235,
    0xC19BF174CF692694, 0xE49B69C19EF14AD2, 0xEFBE4786384F25E3, 0x0FC19DC68B8CD5B5, 0x240CA1CC77AC9C65,
    0x2DE92C6F592B0275, 0x4A7484AA6EA6E483, 0x5CB0A9DCBD41FBD4, 0x76F988DA831153B5, 0x983E5152EE66DFAB,
    0xA831C66D2DB43210, 0xB00327C898FB213F, 0xBF597FC7BEEF0EE4, 0xC6E00BF33DA88FC2, 0xD5A79147930AA725,
    0x06CA6351E003826F, 0x142929670A0E6E70, 0x27B70A8546D22FFC, 0x2E1B21385C26C926, 0x4D2C6DFC5AC42AED,
    0x53380D139D95B3DF, 0x650A73548BAF63DE, 0x766A0ABB3C77B2A8, 0x81C2C92E47EDAEE6, 0x92722C851482353B,
    0xA2BFE8A14CF10364, 0xA81A664BBC423001, 0xC24B8B70D0F89791, 0xC76C51A30654BE30, 0xD192E819D6EF5218,
    0xD69906245565A910, 0xF40E35855771202A, 0x106AA07032BBD1B8, 0x19A4C116B8D2D0C8, 0x1E376C085141AB53,
    0x2748774CDF8EEB99, 0x34B0BCB5E19B48A8, 0x391C0CB3C5C95A63, 0x4ED8AA4AE3418ACB, 0x5B9CCA4F7763E373,
    0x682E6FF3D6B2B8A3, 0x748F82EE5DEFB2FC, 0x78A5636F43172F60, 0x84C87814A1F0AB72, 0x8CC702081A6439EC,
    0x90BEFFFA23631E28, 0xA4506CEBDE82BDE9, 0xBEF9A3F7B2C67915, 0xC67178F2E372532B, 0xCA273ECEEA26619C,
    0xD186B8C721C0C207, 0xEADA7DD6CDE0EB1E, 0xF57D4F7FEE6ED178, 0x06F067AA72176FBA, 0x0A637DC5A2C898A6,
    0x113F9804BEF90DAE, 0x1B710B35131C471B, 0x28DB77F523047D84, 0x32CAAB7B40C72493, 0x3C9EBE0A15C9BEBC,
    0x431D67C49C100D4C, 0x4CC5D4BECB3E42B6, 0x597F299CFC657E2A, 0x5FCB6FAB3AD6FAEC, 0x6C44198C4A475817 ]

/-- Big-endian assembly of eight bytes into one 64-bit word, 16 words per block. -/
def bytesToWords64 : List Nat → List Nat
  | b0 :: b1 :: b2 :: b3 :: b4 :: b5 :: b6 :: b7 :: rest =>
      ((b0 <<< 56) ||| (b1 <<< 48) ||| (b2 <<< 40) ||| (b3 <<< 32) |||
       (b4 <<< 24) ||| (b5 <<< 16) ||| (b6 <<< 8) ||| b7) :: bytesToWords64 rest
  | _ => []

/-- One step of the message schedule: `w` is the sliding window of the 16
most recent words, oldest first. -/
def nextW (w : List Nat) : Nat :=
  (smallSigma1 (w.getD 14 0) + w.getD 9 0 + smallSigma0 (w.getD 1 0) + w.getD 0 0) &&& MASK64

def extendWords : Nat → List Nat → List Nat
  | 0, _ => []
  | n + 1, w =>
      let x := nextW w
      x :: extendWords n (w.drop 1 ++ [x])

def messageSchedule (ws : List Nat) : List Nat := ws ++ extendWords 64 ws

def sha512Round (st : Hash8) (kw : Nat × Nat) : Hash8 :=
  let t1 := (st.h + bigSigma1 st.e + chFn st.e st.f st.g + kw.1 + kw.2) &&& MASK64
  let t2 := (bigSigma0 st.a + majFn st.a st.b st.c) &&& MASK64
  ⟨(t1 + t2) &&& MASK64, st.a, st.b, st.c, (st.d + t1) &&& MASK64, st.e, st.f, st.g⟩

def compressBlock (st : Hash8) (block : List Nat) : Hash8 :=
  let w := messageSchedule (bytesToWords64 block)
  let r := (sha512K.zip w).foldl sha512Round st
  ⟨(st.a + r.a) &&& MASK64, (st.b + r.b) &&& MASK64, (st.c + r.c) &&& MASK64,
   (st.d + r.d) &&& MASK64, (st.e + r.e) &&& MASK64, (st.f + r.f) &&& MASK64,
   (st.g + r.g) &&& MASK64, (st.h + r.h) &&& MASK64⟩

/-- Fold `compressBlock` over the 128-byte blocks of the message.  The fuel
argument is instantiated with the message length below; every step consumes
at least one byte, so the fuel never runs out on the actual call. -/
def processBlocksAux : Nat → List Nat → Hash8 → Hash8
  | 0, _, st => st
  | _, [], st => st
  | fuel + 1, b :: rest, st =>
      processBlocksAux fuel (rest.drop 127) (compressBlock st (b :: rest.take 127))

def processBlocks (msg : List Nat) (st : Hash8) : Hash8 := processBlocksAux msg.length msg st

/-- `k`-byte big-endian encoding of `n` (mod `2^(8k)`). -/
def natToBytesBE (n : Nat) : Nat → List Nat
  | 0 => []
  | k + 1 => natToBytesBE (n >>> 8) k ++ [n &&& 0xFF]

/-- FIPS 180-4 padding: `0x80`, zeros to 112 mod 128, 16-byte bit length. -/
def padMessage (msg : List Nat) : List Nat :=
  let L := msg.length
  msg ++ [0x80] ++ List.replicate ((240 - (L + 1) % 128) % 128) 0 ++ natToBytesBE (8 * L) 16

def hashToBytes (st : Hash8) : List Nat :=
  natToBytesBE st.a 8 ++ natToBytesBE st.b 8 ++ natToBytesBE st.c 8 ++ natToBytesBE st.d 8 ++
  natToBytesBE st.e 8 ++ natToBytesBE st.f 8 ++ natToBytesBE st.g 8 ++ natToBytesBE st.h 8

/-- SHA-512 digest (64 bytes) of a byte list. -/
def sha512 (msg : List Nat) : List Nat := hashToBytes (processBlocks (padMessage msg) sha512init)

/-! ## UTF-8 encoding (the `TextEncoder().encode` primitive) -/

def utf8EncodeChar (c : Char) : List Nat :=
  let n := c.toNat
  if n < 0x80 then [n]
  else if n < 0x800 then [0xC0 ||| (n >>> 6), 0x80 ||| (n &&& 0x3F)]
  else if n < 0x10000 then
    [0xE0 ||| (n >>> 12), 0x80 ||| ((n >>> 6) &&& 0x3F), 0x80 ||| (n &&& 0x3F)]
  else
    [0xF0 ||| (n >>> 18), 0x80 ||| ((n >>> 12) &&& 0x3F),
     0x80 ||| ((n >>> 6) &&& 0x3F), 0x80 ||| (n &&& 0x3F)]

def utf8Encode (s : String) : List Nat := (s.data.map utf8EncodeChar).flatten

/-! ## Credential derivation (`TagFormat.ts`) -/

/-- `calculatePassword(epcData, secretKey, bytesToUse)`: slice the first
`bytesToUse` bytes of the EPC data, append the UTF-8 bytes of the secret,
SHA-512 the concatenation and keep the first 4 digest bytes. -/
def calculatePassword (epcData : List Nat) (secretKey : String) (bytesToUse : Nat := 12) :
    List Nat :=
  let epcBytes := epcData.take bytesToUse
  let secretKeyBytes := utf8Encode secretKey
  (sha512 (epcBytes ++ secretKeyBytes)).take 4

/-- `b.toString(16).padStart(2, '0')` for a byte, before `toUpperCase`. -/
def hexDigitLower (n : Nat) : Char :=
  if n < 10 then Char.ofNat (n + 48) else Char.ofNat (n + 87)

def byteToHexPadded (b : Nat) : List Char := [hexDigitLower (b / 16), hexDigitLower (b % 16)]

/-- `Array.from(bytes).map(b => b.toString(16).padStart(2,'0')).join('').toUpperCase()` -/
def bytesToHexUpper (bs : List Nat) : String :=
  ⟨((bs.map byteToHexPadded).flatten).map Char.toUpper⟩

structure Passwords where
  kill : String
  access : String
  killKey : Option String
  accessKey : Option String
deriving Repr, DecidableEq

/-- JavaScript truthiness of an optional string: `undefined` and `''` are falsy. -/
def strTruthy : Option String → Bool
  | none => false
  | some s => !s.isEmpty

/-- `calculatePasswords(epcData, killKey?, accessKey?, bytesToUse)`. -/
def calculatePasswords (epcData : List Nat) (killKey accessKey : Option String)
    (bytesToUse : Nat := 12) : Passwords :=
  let killPassword :=
    if strTruthy killKey then bytesToHexUpper (calculatePassword epcData (killKey.getD "") bytesToUse)
    else "00000000"
  let accessPassword :=
    if strTruthy accessKey then
      bytesToHexUpper (calculatePassword epcData (accessKey.getD "") bytesToUse)
    else "00000000"
  ⟨killPassword, accessPassword, killKey, accessKey⟩

/-- `parseInt(s.slice(i, i+2), 16)` on the hex strings produced above. -/
def hexCharVal (c : Char) : Nat :=
  if 48 ≤ c.toNat ∧ c.toNat ≤ 57 then c.toNat - 48
  else if 65 ≤ c.toNat ∧ c.toNat ≤ 70 then c.toNat - 55
  else if 97 ≤ c.toNat ∧ c.toNat ≤ 102 then c.toNat - 87
  else 0

def parseHexByte (s : String) (i : Nat) : Nat :=
  hexCharVal (s.data.getD i '0') * 16 + hexCharVal (s.data.getD (i + 1) '0')

/-- `calculateRES(epcData, bytesToUse)`: derive the passwords with no keys
supplied, parse the two 8-character hex strings back to bytes and
concatenate `kill || access` into the 8-byte RES. -/
def calculateRES (epcData : List Nat) (bytesToUse : Nat := 12) : List Nat :=
  let passwords := calculatePasswords epcData none none bytesToUse
  let killBytes := [parseHexByte passwords.kill 0, parseHexByte passwords.kill 2,
                    parseHexByte passwords.kill 4, parseHexByte passwords.kill 6]
  let accessBytes := [parseHexByte passwords.access 0, parseHexByte passwords.access 2,
                      parseHexByte passwords.access 4, parseHexByte passwords.access 6]
  killBytes ++ accessBytes

/-! ## Tag formats (`TagFormat.ts`)

`tid` is produced by `generateRandomTID` (browser randomness); it is taken
as a parameter of the format constants, since no claim depends on it. -/

structure Block where
  name : String
  sizeBits : Nat
  editable : Bool
  value : List Nat
  description : Option String
deriving Repr, DecidableEq

structure TagFormat where
  name : String
  blocks : List Block
  tid : List Nat
  passwordBytes : Option Nat
deriving Repr, DecidableEq

def exampleTagFormat (tid : List Nat) : TagFormat :=
  { name := "UB Dortmund 128-bit EPC"
    blocks :=
      [ ⟨"EPC-CRC", 16, false, [0xF8, 0xD4], some "CRC (fixed)"⟩,
        ⟨"EPC-PC", 16, false, [0x40, 0x00], some "RFID Meta Info (fixed)"⟩,
        ⟨"EPC-DATA", 128, true,
          [0x19, 0xE9, 0xF8, 0x71, 0x00, 0x00, 0x00, 0x00,
           0x07, 0x5B, 0xCD, 0x15, 0x00, 0x00, 0x00, 0x01],
          some "Library/Media Data"⟩,
        ⟨"RES", 64, false, [0x28, 0x2F, 0xFD, 0xFB, 0xE2, 0xE2, 0x21, 0xDE],
          some "RES (auto-calculated)"⟩ ]
    tid := tid
    passwordBytes := some 12 }

def bookWavesTagFormat (tid : List Nat) : TagFormat :=
  { name := "Generic BookWaves 128-bit EPC"
    blocks :=
      [ ⟨"EPC-CRC", 16, false, [0xF8, 0xD4], some "CRC (fixed)"⟩,
        ⟨"EPC-PC", 16, false, [0x40, 0x00], some "RFID Meta Info (fixed)"⟩,
        ⟨"EPC-DATA", 128, true,
          [0x19, 0xE9, 0xF8, 0x71, 0x20, 0x21, 0x22, 0x23,
           0x24, 0x25, 0x26, 0x27, 0x28, 0x29, 0x00, 0x01],
          some "Library/Media Data"⟩,
        ⟨"RES", 64, false, [0x28, 0x2F, 0xFD, 0xFB, 0xE2, 0xE2, 0x21, 0xDE],
          some "RES (auto-calculated)"⟩ ]
    tid := tid
    passwordBytes := some 14 }

/-! ## Page logic (`+page.svelte`) -/

/-- `selectedFormat.name === 'UB Dortmund 128-bit EPC' ? 4 : 4` -/
def librarySigleSize (fmt : TagFormat) : Nat :=
  if fmt.name = "UB Dortmund 128-bit EPC" then 4 else 4

/-- `selectedFormat.name === 'UB Dortmund 128-bit EPC' ? 8 : 10` -/
def mediaNumberSize (fmt : TagFormat) : Nat :=
  if fmt.name = "UB Dortmund 128-bit EPC" then 8 else 10

/-- `selectedFormat.name === 'UB Dortmund 128-bit EPC' ? 4 : 2` -/
def bitflagsSize (fmt : TagFormat) : Nat :=
  if fmt.name = "UB Dortmund 128-bit EPC" then 4 else 2

/-- Size in bits of the format's EPC-DATA block. -/
def dataBlockSizeBits (fmt : TagFormat) : Nat :=
  match fmt.blocks.find? (fun b => b.name == "EPC-DATA") with
  | some b => b.sizeBits
  | none => 0

/-- `decodeSecurityStatus(bytes)`: `bytes[bytes.length - 1] || 0`, then test
the least-significant bit. -/
def decodeSecurityStatus (bytes : List Nat) : String :=
  let lastByte := bytes.getD (bytes.length - 1) 0
  if lastByte &&& 0x01 = 1 then "secured (in library)" else "unsecured (lent out)"

/-- The regular expression `^[0-9A-Fa-f]{1,2}$`, one character at a time
(code points 48–57, 65–70, 97–102). -/
def isHexDigitChar (c : Char) : Bool :=
  (48 ≤ c.toNat && c.toNat ≤ 57) || (65 ≤ c.toNat && c.toNat ≤ 70) ||
  (97 ≤ c.toNat && c.toNat ≤ 102)

/-- `isValidHex(value)`: `/^[0-9A-Fa-f]{1,2}$/.test(value)`. -/
def isValidHex (value : String) : Bool :=
  decide (1 ≤ value.length) && decide (value.length ≤ 2) && value.data.all isHexDigitChar

/-- `parseInt(value, 16)` on a string that passed `isValidHex`. -/
def parseIntHex (s : String) : Nat :=
  s.data.foldl (fun acc c => acc * 16 + hexCharVal c) 0

/-- The byte editor's reactive state: the EPC data buffer and the
`invalidInputs` index set. -/
structure EditorState where
  epcData : List Nat
  invalidInputs : List Nat
deriving Repr, DecidableEq

/-- `Set.prototype.add` on the index set. -/
def setAdd (s : List Nat) (i : Nat) : List Nat := if i ∈ s then s else s ++ [i]

/-- `Set.prototype.delete` on the index set. -/
def setDelete (s : List Nat) (i : Nat) : List Nat := s.filter (fun j => j ≠ i)

/-- `updateEpcData(index, value)`: reject non-hex input, otherwise parse the
byte and, when in range, copy the buffer with only `index` replaced. -/
def updateEpcData (st : EditorState) (index : Nat) (value : String) : EditorState :=
  if !isValidHex value then { st with invalidInputs := setAdd st.invalidInputs index }
  else
    let num := parseIntHex value
    if num ≤ 255 then
      { epcData := st.epcData.set index num, invalidInputs := setDelete st.invalidInputs index }
    else { st with invalidInputs := setAdd st.invalidInputs index }

/-! ## Buffer-threading variants of the derivation functions

To state the frame property (§5 of the spec: the derivation never mutates
the caller's buffer) the functions are re-expressed with the caller's EPC
buffer threaded through every step that touches it.  `slice` and the spread
operator copy in JavaScript, so each step returns the buffer it was handed. -/

/-- `buf.slice(a, b)`: returns the copied window and the source buffer,
which `slice` leaves untouched. -/
def jsSliceOp (buf : List Nat) (a b : Nat) : List Nat × List Nat :=
  ((buf.drop a).take (b - a), buf)

def calculatePasswordST (epcData : List Nat) (secretKey : String) (bytesToUse : Nat) :
    List Nat × List Nat :=
  let p1 := jsSliceOp epcData 0 bytesToUse
  let secretKeyBytes := utf8Encode secretKey
  let digest := sha512 (p1.1 ++ secretKeyBytes)
  (digest.take 4, p1.2)

def calculatePasswordsST (epcData : List Nat) (killKey accessKey : Option String)
    (bytesToUse : Nat) : Passwords × List Nat :=
  let p1 :=
    if strTruthy killKey then
      let q := calculatePasswordST epcData (killKey.getD "") bytesToUse
      (bytesToHexUpper q.1, q.2)
    else ("00000000", epcData)
  let p2 :=
    if strTruthy accessKey then
      let q := calculatePasswordST p1.2 (accessKey.getD "") bytesToUse
      (bytesToHexUpper q.1, q.2)
    else ("00000000", p1.2)
  (⟨p1.1, p2.1, killKey, accessKey⟩, p2.2)

def calculateRESST (epcData : List Nat) (bytesToUse : Nat) : List Nat × List Nat :=
  let p1 := calculatePasswordsST epcData none none bytesToUse
  let killBytes := [parseHexByte p1.1.kill 0, parseHexByte p1.1.kill 2,
                    parseHexByte p1.1.kill 4, parseHexByte p1.1.kill 6]
  let accessBytes := [parseHexByte p1.1.access 0, parseHexByte p1.1.access 2,
                      parseHexByte p1.1.access 4, parseHexByte p1.1.access 6]
  (killBytes ++ accessBytes, p1.2)

/-! ## URN Code 40 codec

Modelled from the spec: the codec the page imports from `$lib/urncode40` is
not part of the repository snapshot (only its call sites are), so
`encode`/`decode` below follow §3, §4.1 and §7 of the specification: a
40-symbol alphabet with one reserved pad value, `word = v1*1600 + v2*40 +
v3` packed big-endian into two bytes, decoding rejecting odd lengths,
words above 39999 and out-of-alphabet values, and stripping at most two
trailing pad symbols.  The alphabet itself is the pluggable configuration
table §9 calls for. -/

inductive CodecError where
  | invalidCharacter
  | invalidLength
  | invalidWord
deriving Repr, DecidableEq

instance {ε σ : Type} [DecidableEq ε] [DecidableEq σ] : DecidableEq (Except ε σ) :=
  fun x y =>
    match x, y with
    | .ok a, .ok b => if h : a = b then isTrue (by rw [h]) else isFalse (by simp [h])
    | .error e, .error f => if h : e = f then isTrue (by rw [h]) else isFalse (by simp [h])
    | .ok _, .error _ => isFalse (by simp)
    | .error _, .ok _ => isFalse (by simp)

/-- A concrete choice of the 40-symbol alphabet: a duplicate-free table of
40 characters and the index of the reserved pad symbol. -/
structure Code40Alphabet where
  chars : List Char
  padIdx : Nat
  hlen : chars.length = 40
  hnodup : chars.Nodup
  hpadIdx : padIdx < 40

def padChar (α : Code40Alphabet) : Char := α.chars.getD α.padIdx ' '

/-- The symbol's value 0–39, `none` when outside the alphabet. -/
def charVal (α : Code40Alphabet) (c : Char) : Option Nat :=
  if c ∈ α.chars then some (α.chars.indexOf c) else none

def lookupVals (α : Code40Alphabet) : List Char → Option (List Nat)
  | [] => some []
  | c :: cs =>
      match charVal α c, lookupVals α cs with
      | some v, some vs => some (v :: vs)
      | _, _ => none

def packWord (v1 v2 v3 : Nat) : Nat := v1 * 1600 + v2 * 40 + v3

def wordToBytes (w : Nat) : List Nat := [w / 256, w % 256]

/-- Pack three values per 16-bit word; a final partial group is padded on
the right with the reserved pad value. -/
def encodeVals (padVal : Nat) : List Nat → List Nat
  | [] => []
  | [v1] => wordToBytes (packWord v1 padVal padVal)
  | [v1, v2] => wordToBytes (packWord v1 v2 padVal)
  | v1 :: v2 :: v3 :: rest => wordToBytes (packWord v1 v2 v3) ++ encodeVals padVal rest

def encode (α : Code40Alphabet) (s : String) : Except CodecError (List Nat) :=
  match lookupVals α s.data with
  | some vs => .ok (encodeVals α.padIdx vs)
  | none => .error .invalidCharacter

/-- Bytes to values: odd length is `InvalidLength`, a word above 39999 is
`InvalidWord`, otherwise recover `v1 = w/1600`, `v2 = (w/40)%40`, `v3 = w%40`. -/
def bytesToVals : List Nat → Except CodecError (List Nat)
  | [] => .ok []
  | [_] => .error .invalidLength
  | b1 :: b2 :: rest =>
      let w := b1 * 256 + b2
      if w ≤ 39999 then
        match bytesToVals rest with
        | .ok vs => .ok (w / 1600 :: (w / 40) % 40 :: w % 40 :: vs)
        | .error e => .error e
      else .error .invalidWord

def valsToChars (α : Code40Alphabet) : List Nat → Except CodecError (List Char)
  | [] => .ok []
  | v :: vs =>
      match α.chars[v]?, valsToChars α vs with
      | some c, .ok cs => .ok (c :: cs)
      | _, _ => .error .invalidCharacter

def trailingPadCount (α : Code40Alphabet) (cs : List Char) : Nat :=
  (cs.reverse.takeWhile (fun c => c = padChar α)).length

/-- Strip the trailing pad run: more than two trailing pads, or a pad away
from the tail, is a non-canonical group and fails. -/
def stripPads (α : Code40Alphabet) (cs : List Char) : Except CodecError (List Char) :=
  if trailingPadCount α cs > 2 then .error .invalidCharacter
  else if padChar α ∈ cs.take (cs.length - trailingPadCount α cs) then .error .invalidCharacter
  else .ok (cs.take (cs.length - trailingPadCount α cs))

def decode (α : Code40Alphabet) (bs : List Nat) : Except CodecError String :=
  match bytesToVals bs with
  | .error e => .error e
  | .ok vs =>
      match valsToChars α vs with
      | .error e => .error e
      | .ok cs =>
          match stripPads α cs with
          | .error e => .error e
          | .ok kept => .ok ⟨kept⟩

/-- The byte list `encode` produces on an all-in-alphabet string. -/
def encodeData (α : Code40Alphabet) (s : String) : List Nat :=
  encodeVals α.padIdx (s.data.map fun c => α.chars.indexOf c)

/-- Every character of `s` is in the alphabet. -/
def inAlphabet (α : Code40Alphabet) (s : String) : Bool :=
  s.data.all (fun c => α.chars.contains c)

/-- No character of `s` is the pad symbol. -/
def padFree (α : Code40Alphabet) (s : String) : Bool :=
  s.data.all (fun c => c ≠ padChar α)

/-- Every group-leading character (index ≡ 0 mod 3) has value at most 24,
i.e. every packed word stays within the decoder's 39999 bound. -/
def groupLeadsSmall (α : Code40Alphabet) (s : String) : Bool :=
  (List.range s.data.length).all
    (fun i => i % 3 != 0 || decide ((s.data.map fun c => α.chars.indexOf c).getD i 0 ≤ 24))

/-- A concrete alphabet instance: digits, uppercase letters, four
punctuation marks, with `':'` (index 39) as the reserved pad symbol. -/
def stdChars : List Char :=
  ['0', '1', '2', '3', '4', '5', '6', '7', '8', '9',
   'A', 'B', 'C', 'D', 'E', 'F', 'G', 'H', 'I', 'J',
   'K', 'L', 'M', 'N', 'O', 'P', 'Q', 'R', 'S', 'T',
   'U', 'V', 'W', 'X', 'Y', 'Z', ' ', '-', '.', ':']

def stdAlphabet : Code40Alphabet := ⟨stdChars, 39, by decide, by decide, by decide⟩

/-! ## Theorems -/

set_option maxRecDepth 20000

/-- C3: `calculateRES` concatenates the parsed kill and access passwords
derived with no secrets supplied; since both are the `"00000000"` sentinel
it is always the eight zero bytes, whatever the data block contains. -/
theorem calculateRES_allZero :
    ∀ (epcData : List Nat) (bytesToUse : Nat),
      calculateRES epcData bytesToUse =
        (let p := calculatePasswords epcData none none bytesToUse
         [parseHexByte p.kill 0, parseHexByte p.kill 2,
          parseHexByte p.kill 4, parseHexByte p.kill 6] ++
         [parseHexByte p.access 0, parseHexByte p.access 2,
          parseHexByte p.access 4, parseHexByte p.access 6]) ∧
      calculateRES epcData bytesToUse = [0, 0, 0, 0, 0, 0, 0, 0] := by
  intro epcData bytesToUse
  exact ⟨rfl, rfl⟩

/-- C2: with both secrets absent the password pair is the all-zero
sentinel, and each secret is handled independently: an absent or empty
secret yields `"00000000"` for its own password whatever the other secret
and the data block are. -/
theorem calculatePasswords_sentinel :
    ∀ (epcData : List Nat) (bytesToUse : Nat) (killKey accessKey : Option String),
      calculatePasswords epcData none none bytesToUse =
        ⟨"00000000", "00000000", none, none⟩ ∧
      (calculatePasswords epcData none accessKey bytesToUse).kill = "00000000" ∧
      (calculatePasswords epcData (some "") accessKey bytesToUse).kill = "00000000" ∧
      (calculatePasswords epcData killKey none bytesToUse).access = "00000000" ∧
      (calculatePasswords epcData killKey (some "") bytesToUse).access = "00000000" := by
  intro epcData bytesToUse killKey accessKey
  exact ⟨rfl, rfl, rfl, rfl, rfl⟩

/-- C5: `calculatePasswords` is deterministic, and the two derivations are
independent: the kill password is unchanged when the access secret varies,
and symmetrically. -/
theorem calculatePasswords_deterministic_independent :
    ∀ (epcData : List Nat) (killKey accessKey killKey2 accessKey2 : Option String)
      (bytesToUse : Nat),
      calculatePasswords epcData killKey accessKey bytesToUse =
        calculatePasswords epcData killKey accessKey bytesToUse ∧
      (calculatePasswords epcData killKey accessKey bytesToUse).kill =
        (calculatePasswords epcData killKey accessKey2 bytesToUse).kill ∧
      (calculatePasswords epcData killKey accessKey bytesToUse).access =
        (calculatePasswords epcData killKey2 accessKey bytesToUse).access := by
  intro epcData killKey accessKey killKey2 accessKey2 bytesToUse
  exact ⟨rfl, rfl, rfl⟩

/-- C7: for both tag formats the three sub-field sizes sum exactly to the
16-byte editable data block, and each format's `passwordBytes` is the fixed
constant 12 (UB Dortmund) respectively 14 (BookWaves), independent of tag
content. -/
theorem formatSizes_consistent :
    ∀ tid1 tid2 : List Nat,
      (librarySigleSize (exampleTagFormat tid1) = 4 ∧
       mediaNumberSize (exampleTagFormat tid1) = 8 ∧
       bitflagsSize (exampleTagFormat tid1) = 4 ∧
       librarySigleSize (exampleTagFormat tid1) + mediaNumberSize (exampleTagFormat tid1) +
         bitflagsSize (exampleTagFormat tid1) = dataBlockSizeBits (exampleTagFormat tid1) / 8 ∧
       (exampleTagFormat tid1).passwordBytes = some 12) ∧
      (librarySigleSize (bookWavesTagFormat tid2) = 4 ∧
       mediaNumberSize (bookWavesTagFormat tid2) = 10 ∧
       bitflagsSize (bookWavesTagFormat tid2) = 2 ∧
       librarySigleSize (bookWavesTagFormat tid2) + mediaNumberSize (bookWavesTagFormat tid2) +
         bitflagsSize (bookWavesTagFormat tid2) = dataBlockSizeBits (bookWavesTagFormat tid2) / 8 ∧
       (bookWavesTagFormat tid2).passwordBytes = some 14) := by
  intro tid1 tid2
  refine ⟨⟨rfl, rfl, rfl, ?_, rfl⟩, ⟨rfl, rfl, rfl, ?_, rfl⟩⟩ <;>
    simp [librarySigleSize, mediaNumberSize, bitflagsSize, dataBlockSizeBits,
          exampleTagFormat, bookWavesTagFormat, List.find?]

/-- C9: the derivation functions never mutate the EPC buffer they are
handed: threading the caller's buffer through every step that touches it,
each function returns the buffer unchanged, while computing the same
results as the direct definitions. -/
theorem derivation_preserves_buffer :
    ∀ (epcData : List Nat) (secretKey : String) (killKey accessKey : Option String)
      (bytesToUse : Nat),
      (calculatePasswordST epcData secretKey bytesToUse).2 = epcData ∧
      (calculatePasswordST epcData secretKey bytesToUse).1 =
        calculatePassword epcData secretKey bytesToUse ∧
      (calculatePasswordsST epcData killKey accessKey bytesToUse).2 = epcData ∧
      (calculatePasswordsST epcData killKey accessKey bytesToUse).1 =
        calculatePasswords epcData killKey accessKey bytesToUse ∧
      (calculateRESST epcData bytesToUse).2 = epcData ∧
      (calculateRESST epcData bytesToUse).1 = calculateRES epcData bytesToUse := by
  intro epcData secretKey killKey accessKey bytesToUse
  refine ⟨rfl, rfl, ?_, ?_, rfl, rfl⟩ <;>
    cases hk : strTruthy killKey <;> cases ha : strTruthy accessKey <;>
      simp [calculatePasswordsST, calculatePasswords, calculatePasswordST,
            calculatePassword, jsSliceOp, hk, ha]

/-- C1: `calculatePassword` is the first 4 bytes of the SHA-512 digest of
the `bytesToUse`-byte data prefix concatenated with the UTF-8 secret, and
`calculatePasswords` renders it as 8 uppercase hex characters; on the UB
Dortmund example data with `prefixLen` 12 and kill secret `"kill1"` the
kill password is `"E543499A"`, the independently computed value of
SHA-512(`19 E9 F8 71 00 00 00 00 07 5B CD 15` ‖ UTF-8(`"kill1"`)) truncated
to 4 bytes. -/
theorem calculatePassword_sha512 :
    (∀ (epcData : List Nat) (secret : String) (accessKey : Option String) (bytesToUse : Nat),
      secret ≠ "" →
      calculatePassword epcData secret bytesToUse =
        (sha512 (epcData.take bytesToUse ++ utf8Encode secret)).take 4 ∧
      (calculatePasswords epcData (some secret) accessKey bytesToUse).kill =
        bytesToHexUpper ((sha512 (epcData.take bytesToUse ++ utf8Encode secret)).take 4)) ∧
    (calculatePasswords
        [0x19, 0xE9, 0xF8, 0x71, 0x00, 0x00, 0x00, 0x00,
         0x07, 0x5B, 0xCD, 0x15, 0x00, 0x00, 0x00, 0x01]
        (some "kill1") none 12).kill = "E543499A" := by
  constructor
  · intro epcData secret accessKey bytesToUse hs
    have hne : secret.isEmpty = false := by
      cases h : secret.isEmpty
      · rfl
      · exact absurd ((String.isEmpty_iff secret).mp h) hs
    refine ⟨rfl, ?_⟩
    simp [calculatePasswords, strTruthy, hne, calculatePassword]
  · decide

/-- C1 witness. -/
theorem calculatePassword_sha512_witness :
    calculatePassword [1, 2, 3] "k" 5 =
      (sha512 ([1, 2, 3].take 5 ++ utf8Encode "k")).take 4 :=
  (calculatePassword_sha512.1 [1, 2, 3] "k" none 5 (by decide)).1

/-- C8: the decoded security status depends only on the least-significant
bit of the status sub-field's final byte — secured when it is 1, unsecured
when it is 0 — so changing any other bit of any status byte never changes
the result. -/
theorem decodeSecurityStatus_lsb :
    ∀ bytes : List Nat,
      decodeSecurityStatus bytes =
        (if bytes.getD (bytes.length - 1) 0 % 2 = 1 then "secured (in library)"
         else "unsecured (lent out)") ∧
      ∀ bytes2 : List Nat,
        bytes.getD (bytes.length - 1) 0 % 2 = bytes2.getD (bytes2.length - 1) 0 % 2 →
        decodeSecurityStatus bytes = decodeSecurityStatus bytes2 := by
  intro bytes
  constructor
  · simp only [decodeSecurityStatus, Nat.and_one_is_mod]
  · intro bytes2 h
    simp only [decodeSecurityStatus, Nat.and_one_is_mod, h]

/-- C8 witness. -/
theorem decodeSecurityStatus_lsb_witness :
    decodeSecurityStatus [4, 5] = decodeSecurityStatus [255] :=
  (decodeSecurityStatus_lsb [4, 5]).2 [255] (by decide)

/-- C10: when the data block is shorter than `bytesToUse`, the slice clamps
to the buffer, so `calculatePassword` succeeds and hashes the entire data
block. -/
theorem calculatePassword_clamps :
    ∀ (epcData : List Nat) (secretKey : String) (bytesToUse : Nat),
      epcData.length ≤ bytesToUse →
      epcData.take bytesToUse = epcData ∧
      calculatePassword epcData secretKey bytesToUse =
        (sha512 (epcData ++ utf8Encode secretKey)).take 4 := by
  intro epcData secretKey bytesToUse h
  have ht : epcData.take bytesToUse = epcData := List.take_of_length_le h
  exact ⟨ht, by simp [calculatePassword, ht]⟩

/-- C10 witness. -/
theorem calculatePassword_clamps_witness :
    [1, 2, 3].take 12 = [1, 2, 3] ∧
    calculatePassword [1, 2, 3] "s" 12 = (sha512 ([1, 2, 3] ++ utf8Encode "s")).take 4 :=
  calculatePassword_clamps [1, 2, 3] "s" 12 (by decide)

/-- A hex digit's value is at most 15. -/
theorem hexCharVal_le15 (c : Char) : hexCharVal c ≤ 15 := by
  unfold hexCharVal
  split <;> [omega; split <;> [omega; split <;> omega]]

/-- `parseInt(value, 16)` on at most two hex digits is at most 255. -/
theorem parseIntHex_le255 (s : String) (h : s.length ≤ 2) : parseIntHex s ≤ 255 := by
  obtain ⟨l⟩ := s
  have hlen : l.length ≤ 2 := h
  unfold parseIntHex
  match l, hlen with
  | [], _ => simp
  | [c1], _ =>
      have := hexCharVal_le15 c1
      simp only [List.foldl_cons, List.foldl_nil]
      omega
  | [c1, c2], _ =>
      have h1 := hexCharVal_le15 c1
      have h2 := hexCharVal_le15 c2
      simp only [List.foldl_cons, List.foldl_nil]
      omega

/-- An index is always a member of the set after `Set.add`. -/
theorem mem_setAdd (s : List Nat) (i : Nat) : i ∈ setAdd s i := by
  unfold setAdd
  split
  · assumption
  · exact List.mem_append_right s (List.mem_singleton_self i)

/-- C6: `updateEpcData` rejects values outside a byte — the strings
`"256"` and `"-1"` fail validation, mark the index invalid and leave the
buffer completely unchanged — while a valid hex value parses to a byte at
most 255 and overwrites only the addressed index, leaving every sibling
byte intact. -/
theorem updateEpcData_validation :
    ∀ (st : EditorState) (index : Nat),
      ((updateEpcData st index "256").epcData = st.epcData ∧
        index ∈ (updateEpcData st index "256").invalidInputs) ∧
      ((updateEpcData st index "-1").epcData = st.epcData ∧
        index ∈ (updateEpcData st index "-1").invalidInputs) ∧
      ∀ value : String, isValidHex value = true →
        parseIntHex value ≤ 255 ∧
        (updateEpcData st index value).epcData = st.epcData.set index (parseIntHex value) ∧
        (∀ j, j ≠ index →
          (updateEpcData st index value).epcData.getD j 0 = st.epcData.getD j 0) ∧
        (index < st.epcData.length →
          (updateEpcData st index value).epcData.getD index 0 = parseIntHex value) := by
  intro st index
  have h256 : isValidHex "256" = false := by decide
  have hneg : isValidHex "-1" = false := by decide
  refine ⟨⟨?_, ?_⟩, ⟨?_, ?_⟩, ?_⟩
  · simp [updateEpcData, h256]
  · simpa [updateEpcData, h256] using mem_setAdd st.invalidInputs index
  · simp [updateEpcData, hneg]
  · simpa [updateEpcData, hneg] using mem_setAdd st.invalidInputs index
  · intro value hv
    have hlen : value.length ≤ 2 := by
      unfold isValidHex at hv
      simp only [Bool.and_eq_true, decide_eq_true_eq] at hv
      exact hv.1.2
    have h255 := parseIntHex_le255 value hlen
    refine ⟨h255, ?_, ?_, ?_⟩
    · simp [updateEpcData, hv, h255]
    · intro j hj
      simp only [updateEpcData, hv, Bool.not_true, Bool.false_eq_true, if_false, h255, if_pos]
      rw [List.getD_eq_getElem?_getD, List.getD_eq_getElem?_getD,
        List.getElem?_set_ne (fun he => hj he.symm)]
    · intro hidx
      simp only [updateEpcData, hv, Bool.not_true, Bool.false_eq_true, if_false, h255, if_pos]
      rw [List.getD_eq_getElem?_getD]
      simp [List.getElem?_set_self', hidx]

/-- A packed word whose leading value is at most 24 stays within the
decoder's 39999 bound. -/
theorem packWord_le (v1 v2 v3 : Nat) (h1 : v1 ≤ 24) (h2 : v2 < 40) (h3 : v3 < 40) :
    packWord v1 v2 v3 ≤ 39999 := by
  unfold packWord
  omega

/-- Decoding one in-range packed word in front of already-decodable bytes
recovers the three values. -/
theorem bytesToVals_word (v1 v2 v3 : Nat) (h1 : v1 ≤ 24) (h2 : v2 < 40) (h3 : v3 < 40)
    (rest : List Nat) (vs : List Nat) (hrest : bytesToVals rest = .ok vs) :
    bytesToVals (wordToBytes (packWord v1 v2 v3) ++ rest) = .ok (v1 :: v2 :: v3 :: vs) := by
  have hb : packWord v1 v2 v3 / 256 * 256 + packWord v1 v2 v3 % 256 = packWord v1 v2 v3 := by
    omega
  have h1600 : packWord v1 v2 v3 / 1600 = v1 := by unfold packWord; omega
  have h40 : packWord v1 v2 v3 / 40 % 40 = v2 := by unfold packWord; omega
  have hm40 : packWord v1 v2 v3 % 40 = v3 := by unfold packWord; omega
  simp only [wordToBytes, List.cons_append, List.nil_append, bytesToVals, List.append_eq]
  rw [hb, hrest, if_pos (packWord_le v1 v2 v3 h1 h2 h3), h1600, h40, hm40]

/-- Encoding values below 40 whose group-leading entries are at most 24
decodes back to the values extended by the final group's padding. -/
theorem bytesToVals_encodeVals (p : Nat) (hp : p < 40) :
    ∀ (n : Nat) (vs : List Nat), vs.length ≤ n →
      (∀ v ∈ vs, v < 40) →
      (∀ i, i % 3 = 0 → vs.getD i 0 ≤ 24) →
      bytesToVals (encodeVals p vs) =
        .ok (vs ++ List.replicate ((3 - vs.length % 3) % 3) p) := by
  intro n
  induction n with
  | zero =>
      intro vs hlen _ _
      obtain rfl : vs = [] := List.length_eq_zero.mp (Nat.le_zero.mp hlen)
      rfl
  | succ n ih =>
      intro vs hlen hlt hlead
      match vs with
      | [] => rfl
      | [v1] =>
          have hv1 : v1 ≤ 24 := hlead 0 rfl
          have := bytesToVals_word v1 p p hv1 hp hp [] [] rfl
          simpa [encodeVals, List.replicate] using this
      | [v1, v2] =>
          have hv1 : v1 ≤ 24 := hlead 0 rfl
          have hv2 : v2 < 40 := hlt v2 (by simp)
          have := bytesToVals_word v1 v2 p hv1 hv2 hp [] [] rfl
          simpa [encodeVals, List.replicate] using this
      | v1 :: v2 :: v3 :: rest =>
          have hv1 : v1 ≤ 24 := hlead 0 rfl
          have hv2 : v2 < 40 := hlt v2 (by simp)
          have hv3 : v3 < 40 := hlt v3 (by simp)
          have hrlen : rest.length ≤ n := by
            simp only [List.length_cons] at hlen
            omega
          have hrlt : ∀ v ∈ rest, v < 40 := fun v hv => hlt v (by simp [hv])
          have hrlead : ∀ i, i % 3 = 0 → rest.getD i 0 ≤ 24 := by
            intro i hi
            have h3i : (i + 3) % 3 = 0 := by omega
            have := hlead (i + 3) h3i
            simpa [List.getD_cons_succ] using this
          have hrec := ih rest hrlen hrlt hrlead
          have hword := bytesToVals_word v1 v2 v3 hv1 hv2 hv3 (encodeVals p rest) _ hrec
          have hmod : (3 - (rest.length + 1 + 1 + 1) % 3) % 3 =
              (3 - rest.length % 3) % 3 := by omega
          simpa [encodeVals, List.length_cons, hmod] using hword

/-- The encoder's output length is `ceil(len/3) * 2` bytes. -/
theorem encodeVals_length (p : Nat) :
    ∀ (n : Nat) (vs : List Nat), vs.length ≤ n →
      (encodeVals p vs).length = ((vs.length + 2) / 3) * 2 := by
  intro n
  induction n with
  | zero =>
      intro vs hlen
      obtain rfl : vs = [] := List.length_eq_zero.mp (Nat.le_zero.mp hlen)
      rfl
  | succ n ih =>
      intro vs hlen
      match vs with
      | [] => rfl
      | [v1] => simp [encodeVals, wordToBytes]
      | [v1, v2] => simp [encodeVals, wordToBytes]
      | v1 :: v2 :: v3 :: rest =>
          have hrlen : rest.length ≤ n := by
            simp only [List.length_cons] at hlen
            omega
          have := ih rest hrlen
          simp only [encodeVals, List.length_append, List.length_cons, this, wordToBytes,
            List.length_nil]
          omega

/-- A symbol's value is below the alphabet size. -/
theorem indexOf_lt40 (α : Code40Alphabet) (c : Char) (hc : c ∈ α.chars) :
    α.chars.indexOf c < 40 :=
  α.hlen ▸ List.indexOf_lt_length.2 hc

/-- Value lookup of an all-in-alphabet string succeeds with the indices. -/
theorem lookupVals_map (α : Code40Alphabet) :
    ∀ cs : List Char, (∀ c ∈ cs, c ∈ α.chars) →
      lookupVals α cs = some (cs.map fun c => α.chars.indexOf c) := by
  intro cs
  induction cs with
  | nil => intro; rfl
  | cons c cs ih =>
      intro h
      have hc : c ∈ α.chars := h c (List.mem_cons_self c cs)
      have hrec := ih fun x hx => h x (List.mem_cons_of_mem c hx)
      simp [lookupVals, charVal, hc, hrec]

/-- `valsToChars` distributes over append when both halves succeed. -/
theorem valsToChars_append (α : Code40Alphabet) :
    ∀ (xs ys : List Nat) (as bs : List Char),
      valsToChars α xs = .ok as → valsToChars α ys = .ok bs →
      valsToChars α (xs ++ ys) = .ok (as ++ bs) := by
  intro xs
  induction xs with
  | nil =>
      intro ys as bs hx hy
      simp only [valsToChars] at hx
      cases hx
      simpa using hy
  | cons v xs ih =>
      intro ys as bs hx hy
      simp only [valsToChars] at hx
      cases hv : α.chars[v]? with
      | none => rw [hv] at hx; simp at hx
      | some c =>
          rw [hv] at hx
          cases hxs : valsToChars α xs with
          | error e => rw [hxs] at hx; simp at hx
          | ok cs =>
              rw [hxs] at hx
              simp only [Except.ok.injEq] at hx
              subst hx
              simp only [List.cons_append, valsToChars, hv, List.append_eq]
              rw [ih ys cs bs hxs hy]

/-- Mapping values back through the alphabet recovers the characters. -/
theorem valsToChars_map (α : Code40Alphabet) :
    ∀ cs : List Char, (∀ c ∈ cs, c ∈ α.chars) →
      valsToChars α (cs.map fun c => α.chars.indexOf c) = .ok cs := by
  intro cs
  induction cs with
  | nil => intro; rfl
  | cons c cs ih =>
      intro h
      have hc : c ∈ α.chars := h c (List.mem_cons_self c cs)
      have hidx : α.chars[α.chars.indexOf c]? = some c := List.getElem?_indexOf hc
      have hrec := ih fun x hx => h x (List.mem_cons_of_mem c hx)
      simp [valsToChars, hidx, hrec]

/-- Decoding a run of pad values yields a run of pad characters. -/
theorem valsToChars_replicate (α : Code40Alphabet) (k : Nat) :
    valsToChars α (List.replicate k α.padIdx) = .ok (List.replicate k (padChar α)) := by
  have hlt : α.padIdx < α.chars.length := α.hlen ▸ α.hpadIdx
  have hidx : α.chars[α.padIdx]? = some (padChar α) := by
    rw [List.getElem?_eq_getElem hlt]
    simp [padChar, List.getD_eq_getElem?_getD, List.getElem?_eq_getElem hlt]
  induction k with
  | zero => rfl
  | succ k ih => simp [List.replicate_succ, valsToChars, hidx, ih]

/-- The trailing pad run of `cs ++ pads` is exactly the appended pads when
`cs` itself is pad-free. -/
theorem trailingPadCount_append (α : Code40Alphabet) (cs : List Char) (k : Nat)
    (hfree : padChar α ∉ cs) :
    trailingPadCount α (cs ++ List.replicate k (padChar α)) = k := by
  unfold trailingPadCount
  rw [List.reverse_append, List.reverse_replicate]
  rw [List.takeWhile_append_of_pos (by intro a ha; simp_all [List.eq_of_mem_replicate ha])]
  have htail : (cs.reverse.takeWhile fun c => c = padChar α) = [] := by
    cases hcs : cs.reverse with
    | nil => rfl
    | cons c t =>
        have hcmem : c ∈ cs := by
          have : c ∈ cs.reverse := by rw [hcs]; exact List.mem_cons_self c t
          simpa using this
        have : ¬(c = padChar α) := fun he => hfree (he ▸ hcmem)
        simp [List.takeWhile_cons, this]
  rw [htail]
  simp

/-- Stripping at most two appended pads from a pad-free prefix returns the
prefix. -/
theorem stripPads_append (α : Code40Alphabet) (cs : List Char) (k : Nat) (hk : k ≤ 2)
    (hfree : padChar α ∉ cs) :
    stripPads α (cs ++ List.replicate k (padChar α)) = .ok cs := by
  unfold stripPads
  rw [trailingPadCount_append α cs k hfree]
  have hlen : (cs ++ List.replicate k (padChar α)).length - k = cs.length := by simp
  rw [if_neg (by omega), hlen, List.take_left' rfl, if_neg hfree]

/-- C4 counterexample: `"Z"` is drawn from the 40-symbol alphabet and
contains no pad symbol, yet its packed word `35*1600 + 39*40 + 39 = 57599`
exceeds the decoder's 39999 bound, so `decode (encode "Z")` fails with
`InvalidWord` instead of round-tripping. -/
theorem code40_roundtrip_cex :
    inAlphabet stdAlphabet "Z" = true ∧ padFree stdAlphabet "Z" = true ∧
    encode stdAlphabet "Z" = .ok [0xE0, 0xFF] ∧
    decode stdAlphabet [0xE0, 0xFF] = .error .invalidWord ∧
    decode stdAlphabet [0xE0, 0xFF] ≠ .ok "Z" := by
  decide

/-- C4 (amended): for every alphabet choice and every string drawn from it
that is pad-free and whose group-leading characters have value at most 24
(so that every packed word stays within the decoder's 39999 bound),
`encode` succeeds, `decode` recovers the string exactly — the final partial
group is padded with the reserved pad value and at most two trailing pads
are stripped — and the output length is `ceil(len/3) * 2` bytes. -/
theorem code40_roundtrip :
    ∀ (α : Code40Alphabet) (s : String),
      inAlphabet α s = true → padFree α s = true → groupLeadsSmall α s = true →
      encode α s = .ok (encodeData α s) ∧
      decode α (encodeData α s) = .ok s ∧
      (encodeData α s).length = ((s.length + 2) / 3) * 2 := by
  intro α s hin hfree hlead
  have hin' : ∀ c ∈ s.data, c ∈ α.chars := by
    intro c hc
    have := List.all_eq_true.mp hin c hc
    simpa using this
  have hfree' : padChar α ∉ s.data := by
    intro hmem
    have := List.all_eq_true.mp hfree _ hmem
    simp at this
  have hlead' : ∀ i, i % 3 = 0 →
      (s.data.map fun c => α.chars.indexOf c).getD i 0 ≤ 24 := by
    intro i hi
    by_cases hilen : i < (s.data.map fun c => α.chars.indexOf c).length
    · have hrange : i ∈ List.range s.data.length := by
        simp only [List.length_map] at hilen
        exact List.mem_range.mpr hilen
      have := List.all_eq_true.mp hlead i hrange
      simp only [hi, decide_eq_true_eq, Bool.or_eq_true, bne_iff_ne, ne_eq,
        not_true_eq_false, false_or] at this
      exact this
    · rw [List.getD_eq_getElem?_getD, List.getElem?_eq_none (by omega)]
      simp
  have hlt : ∀ v ∈ (s.data.map fun c => α.chars.indexOf c), v < 40 := by
    intro v hv
    obtain ⟨c, hc, rfl⟩ := List.mem_map.mp hv
    exact indexOf_lt40 α c (hin' c hc)
  have henc : encode α s = .ok (encodeData α s) := by
    simp [encode, lookupVals_map α s.data hin', encodeData]
  refine ⟨henc, ?_, ?_⟩
  · have h1 := bytesToVals_encodeVals α.padIdx α.hpadIdx
      (s.data.map fun c => α.chars.indexOf c).length
      (s.data.map fun c => α.chars.indexOf c) le_rfl hlt hlead'
    have h2 := valsToChars_map α s.data hin'
    have h3 := valsToChars_replicate α
      ((3 - (s.data.map fun c => α.chars.indexOf c).length % 3) % 3)
    have h4 := valsToChars_append α _ _ _ _ h2 h3
    have h5 := stripPads_append α s.data
      ((3 - (s.data.map fun c => α.chars.indexOf c).length % 3) % 3) (by omega) hfree'
    simp only [decode, encodeData, h1, h4, h5]
  · have hlen := encodeVals_length α.padIdx (s.data.map fun c => α.chars.indexOf c).length
      (s.data.map fun c => α.chars.indexOf c) le_rfl
    have hsl : s.length = s.data.length := rfl
    simp only [encodeData]
    rw [hlen, List.length_map, hsl]

/-- C4 witness: the two-character string `"AB"` (one pad appended by the
encoder, then stripped by the decoder) round-trips over the concrete
alphabet. -/
theorem code40_roundtrip_witness :
    inAlphabet stdAlphabet "AB" = true ∧ padFree stdAlphabet "AB" = true ∧
    groupLeadsSmall stdAlphabet "AB" = true ∧
    decode stdAlphabet (encodeData stdAlphabet "AB") = .ok "AB" :=
  ⟨by decide, by decide, by decide,
   (code40_roundtrip stdAlphabet "AB" (by decide) (by decide) (by decide)).2.1⟩

/-- C6 witness. -/
theorem updateEpcData_validation_witness :
    isValidHex "A5" = true ∧
    parseIntHex "A5" ≤ 255 ∧
    (updateEpcData ⟨[1, 2, 3], []⟩ 1 "A5").epcData = [1, 2, 3].set 1 (parseIntHex "A5") ∧
    (updateEpcData ⟨[1, 2, 3], []⟩ 1 "A5").epcData.getD 0 0 = [1, 2, 3].getD 0 0 := by
  have h := (updateEpcData_validation ⟨[1, 2, 3], []⟩ 1).2.2 "A5" (by decide)
  exact ⟨by decide, h.1, h.2.1, h.2.2.1 0 (by decide)⟩

end UHF
